import Mathlib

/-!
Verification development for the MRCE_Lite multi-round orchestration engine
(files `modules.py`, `orchestrator.py`, `signatures.py`).

Python strings are modelled as `List Char` (`PyStr`).  External collaborators
(router, expert gates, expert answers, judge, summarizer, meta-critic) are
modelled as oracle functions supplied as parameters; fallible collaborator
calls return `Except PyErr`.  Machine floats of the source are modelled as
exact rationals `ℚ`.
-/

set_option maxHeartbeats 1600000

/-- Python strings, modelled as lists of characters. -/
abbrev PyStr := List Char

/-- Python `str.strip()` default whitespace set (ASCII part used by the code). -/
def pyWs (c : Char) : Bool :=
  c = ' ' ∨ c = '\t' ∨ c = '\n' ∨ c = '\r' ∨ c = '\x0b' ∨ c = '\x0c'

/-- Leading-whitespace removal, the first half of Python `str.strip()`. -/
def dropLeadWs (s : PyStr) : PyStr := s.dropWhile pyWs

/-- Trailing-whitespace removal, the second half of Python `str.strip()`. -/
def dropTrailWs (s : PyStr) : PyStr := (s.reverse.dropWhile pyWs).reverse

/-- Python `str.strip()`. -/
def pyStrip (s : PyStr) : PyStr := dropTrailWs (dropLeadWs s)

/-- A string is trimmed when `strip` leaves it unchanged (this includes `""`). -/
def Trimmed (s : PyStr) : Prop := pyStrip s = s

instance (s : PyStr) : Decidable (Trimmed s) := by unfold Trimmed; infer_instance

/-- Python `str.lower()` (the code only lowercases ASCII persona names). -/
def pyLower (s : PyStr) : PyStr := s.map Char.toLower

theorem nilIsPref (l : PyStr) : [] <+: l := ⟨l, rfl⟩

theorem dropWhile_eq_self_of_headOk {p : Char → Bool} {s : PyStr}
    (h : ∀ c ∈ s.head?, p c = false) : s.dropWhile p = s := by
  cases s with
  | nil => rfl
  | cons a t =>
    have := h a (by simp)
    simp [List.dropWhile_cons, this]

theorem headOk_of_dropWhile_eq_self {p : Char → Bool} {s : PyStr}
    (h : s.dropWhile p = s) : ∀ c ∈ s.head?, p c = false := by
  cases s with
  | nil => simp
  | cons a t =>
    intro c hc
    simp only [List.head?_cons, Option.mem_def, Option.some.injEq] at hc
    subst hc
    by_contra hp
    simp only [Bool.not_eq_false] at hp
    rw [List.dropWhile_cons, if_pos hp] at h
    have hlen := congrArg List.length h
    have hle : (t.dropWhile p).length ≤ t.length := (List.dropWhile_sublist p).length_le
    simp only [List.length_cons] at hlen
    omega

theorem headOk_dropWhile (p : Char → Bool) (l : PyStr) :
    ∀ c ∈ (l.dropWhile p).head?, p c = false := by
  intro c hc
  have h := List.head?_dropWhile_not p l
  simp only [Option.mem_def] at hc
  rw [hc] at h
  exact h

/-- A `Trimmed` string is fixed by both halves of `strip`. -/
theorem trimmed_drop_eq {s : PyStr} (h : Trimmed s) :
    dropLeadWs s = s ∧ dropTrailWs s = s := by
  unfold Trimmed pyStrip at h
  have h1 : (dropLeadWs s).length ≤ s.length := (List.dropWhile_sublist pyWs).length_le
  have h2 : (dropTrailWs (dropLeadWs s)).length ≤ (dropLeadWs s).length := by
    unfold dropTrailWs
    have := (List.dropWhile_sublist (l := (dropLeadWs s).reverse) pyWs).length_le
    simpa using this
  have hlen : s.length = (dropTrailWs (dropLeadWs s)).length := by rw [h]
  have hleq : (dropLeadWs s).length = s.length := by omega
  have hlead : dropLeadWs s = s :=
    (List.dropWhile_sublist pyWs).eq_of_length hleq
  refine ⟨hlead, ?_⟩
  rwa [hlead] at h

theorem trimmed_headOk {s : PyStr} (h : Trimmed s) :
    ∀ c ∈ s.head?, pyWs c = false :=
  headOk_of_dropWhile_eq_self (trimmed_drop_eq h).1

theorem trimmed_lastOk {s : PyStr} (h : Trimmed s) :
    ∀ c ∈ s.getLast?, pyWs c = false := by
  have h2 : s.reverse.dropWhile pyWs = s.reverse := by
    have := congrArg List.reverse (trimmed_drop_eq h).2
    unfold dropTrailWs at this
    simpa using this
  have := headOk_of_dropWhile_eq_self h2
  simpa using this

theorem trimmed_of_ends {s : PyStr}
    (h1 : ∀ c ∈ s.head?, pyWs c = false)
    (h2 : ∀ c ∈ s.getLast?, pyWs c = false) : Trimmed s := by
  unfold Trimmed pyStrip dropLeadWs
  rw [dropWhile_eq_self_of_headOk h1]
  unfold dropTrailWs
  have hrev : s.reverse.dropWhile pyWs = s.reverse := by
    apply dropWhile_eq_self_of_headOk
    simpa using h2
  rw [hrev, List.reverse_reverse]

/-- The result of `strip` is itself trimmed. -/
theorem strip_trimmed (s : PyStr) : Trimmed (pyStrip s) := by
  apply trimmed_of_ends
  · intro c hc
    have hpre : pyStrip s <+: dropLeadWs s := by
      unfold pyStrip dropTrailWs
      have h2 := List.reverse_prefix.mpr
        (List.dropWhile_suffix (l := (dropLeadWs s).reverse) pyWs)
      simpa using h2
    rcases hpre with ⟨tail, htail⟩
    apply headOk_dropWhile pyWs s c
    show c ∈ (dropLeadWs s).head?
    rw [← htail, List.head?_append]
    simp only [Option.mem_def] at hc ⊢
    rw [hc]
    rfl
  · intro c hc
    have : (pyStrip s).getLast? = ((dropLeadWs s).reverse.dropWhile pyWs).head? := by
      unfold pyStrip dropTrailWs
      simp
    rw [this] at hc
    exact headOk_dropWhile pyWs (dropLeadWs s).reverse c hc

/-- Hint-accumulator update of `orchestrator.py` lines 64-71:
`if hint: acc = (acc + "\n" + hint).strip()` (Python truthiness: any non-empty
string triggers the update). -/
def hintStep (acc hint : PyStr) : PyStr :=
  if hint = [] then acc else pyStrip (acc ++ '\n' :: hint)

/-- A trimmed accumulator is a prefix of its `hintStep` update, and the update
is again trimmed. -/
theorem hintStep_extends {acc : PyStr} (h : Trimmed acc) (hint : PyStr) :
    acc <+: hintStep acc hint ∧ Trimmed (hintStep acc hint) := by
  unfold hintStep
  split
  · exact ⟨List.prefix_refl acc, h⟩
  · cases hacc : acc with
    | nil =>
      subst hacc
      exact ⟨nilIsPref _, strip_trimmed _⟩
    | cons a t =>
      subst hacc
      have hheadOk := trimmed_headOk h
      have ha : pyWs a = false := hheadOk a (by simp)
      have hlead : dropLeadWs ((a :: t) ++ '\n' :: hint) = (a :: t) ++ '\n' :: hint := by
        apply dropWhile_eq_self_of_headOk
        intro c hc
        simp only [List.cons_append, List.head?_cons, Option.mem_def,
          Option.some.injEq] at hc
        subst hc
        exact ha
      have hstrip : pyStrip ((a :: t) ++ '\n' :: hint)
          = dropTrailWs ((a :: t) ++ '\n' :: hint) := by
        unfold pyStrip
        rw [hlead]
      have hrevacc : (a :: t).reverse.dropWhile pyWs = (a :: t).reverse := by
        have := congrArg List.reverse (trimmed_drop_eq h).2
        unfold dropTrailWs at this
        simpa using this
      have hsplit : dropTrailWs ((a :: t) ++ '\n' :: hint)
          = if (('\n' :: hint).reverse.dropWhile pyWs).isEmpty
            then (a :: t)
            else (a :: t) ++ (('\n' :: hint).reverse.dropWhile pyWs).reverse := by
        unfold dropTrailWs
        rw [List.reverse_append, List.dropWhile_append]
        split
        · rw [hrevacc, List.reverse_reverse]
        · rw [List.reverse_append, List.reverse_reverse]
      rw [hstrip, hsplit]
      split
      · exact ⟨List.prefix_refl _, h⟩
      · rename_i hne
        refine ⟨List.prefix_append _ _, ?_⟩
        apply trimmed_of_ends
        · intro c hc
          simp only [List.cons_append, List.head?_cons, Option.mem_def,
            Option.some.injEq] at hc
          subst hc
          exact ha
        · intro c hc
          rw [List.getLast?_append] at hc
          have hne2 : ('\n' :: hint).reverse.dropWhile pyWs ≠ [] := by
            simpa [List.isEmpty_iff] using hne
          have hgl : ((('\n' :: hint).reverse.dropWhile pyWs).reverse).getLast?
              = (('\n' :: hint).reverse.dropWhile pyWs).head? := by
            simp
          rcases hh : (('\n' :: hint).reverse.dropWhile pyWs).head? with - | c2
          · rw [List.head?_eq_none_iff] at hh
            exact absurd hh hne2
          · rw [hgl, hh] at hc
            simp only [Option.or_some, Option.mem_def, Option.some.injEq] at hc
            subst hc
            exact headOk_dropWhile pyWs ('\n' :: hint).reverse c2 (by rw [hh]; rfl)

theorem nil_trimmed : Trimmed [] := by decide

/-! ## Data model of `modules.py` -/

deriving instance DecidableEq for Except

/-- Python exceptions, as observed by the orchestration code. -/
inductive PyErr where
  | unboundLocal : PyErr
  | raised : PyStr → PyErr
deriving DecidableEq

/-- A conversation message: a `(role, content)` pair. -/
abbrev Msg := PyStr × PyStr

/-- Python `dict.get(key, default)` over an association list. -/
def dictGetD {α : Type} : List (PyStr × α) → PyStr → α → α
  | [], _, d => d
  | (k, v) :: rest, key, d => if k = key then v else dictGetD rest key d

/-- An expert of the registry: persona name and persona text
(`ExpertBase.__init__`). -/
structure Expert where
  persona_name : PyStr
  persona_text : PyStr
deriving DecidableEq

/-- The fixed expert registry `EXPERTS` of `modules.py` lines 144-153. -/
def EXPERTS : List Expert :=
  [ { persona_name := "Analyst".toList,
      persona_text := "Terse, rigorous reasoning; favor equations and definitions.".toList },
    { persona_name := "Synthesizer".toList,
      persona_text := "Generate concrete, non-redundant options; avoid fluff.".toList },
    { persona_name := "Critic".toList,
      persona_text := "Adversarial but fair; enumerate failure modes and safer alternatives.".toList },
    { persona_name := "Theorist".toList,
      persona_text := "Favor formal models and proofs; abstract but precise.".toList },
    { persona_name := "Empiricist".toList,
      persona_text := "Ground claims in data or experiments; note unknowns.".toList },
    { persona_name := "Statistician".toList,
      persona_text := "Quantify uncertainty; apply statistical tests and confidence.".toList },
    { persona_name := "SystemsEngineer".toList,
      persona_text := "Think in components and interfaces; optimize reliability.".toList },
    { persona_name := "CounterexampleHunter".toList,
      persona_text := "Seek edge cases and contradictions; break assumptions.".toList } ]

/-- Output of an expert gate call (`ShouldRespondSig`). -/
structure GateOut where
  respond : PyStr
  confidence : ℚ
  coverage_tags : PyStr
deriving DecidableEq

/-- Output of an expert answer call (`ExpertOutSig`). -/
structure ExpertOut where
  answer : PyStr
deriving DecidableEq

/-- A gated candidate, the `dict(expert=..., score=..., tags=..., hint=...)`
built in `MRCE_Lite.forward`.  `τ` is the tag type (strings in the source). -/
structure Cand (τ : Type) where
  expert : Expert
  score : ℚ
  tags : Finset τ
  hint : PyStr

deriving instance DecidableEq for Cand

/-- `_jaccard` of `modules.py` lines 166-169. -/
def jaccard {τ : Type} [DecidableEq τ] (a b : Finset τ) : ℚ :=
  if a = ∅ ∧ b = ∅ then 0
  else ((a ∩ b).card : ℚ) / (max (a ∪ b).card 1 : ℚ)

/-- `sim` of `MRCE_Lite.forward` lines 229-231: `0.0` when nothing is selected,
else the maximum Jaccard similarity against the selected candidates. -/
def maxSim {τ : Type} [DecidableEq τ] (sel : List (Cand τ)) (c : Cand τ) : ℚ :=
  match sel with
  | [] => 0
  | s :: ss => ss.foldl (fun m x => max m (jaccard c.tags x.tags)) (jaccard c.tags s.tags)

/-- The float literal `-1e9` initialising `best_val` in `MRCE_Lite.forward`
line 227. -/
def negSentinel : ℚ := -1000000000

/-- The inner argmax scan of `MRCE_Lite.forward` lines 226-235: running index,
current best index and best value (initialised to `0` and `-1e9`), updated on a
strictly greater value (`val > best_val`). -/
def bestScan {τ : Type} [DecidableEq τ] (lam : ℚ) (sel : List (Cand τ)) :
    List (Cand τ) → ℕ → ℕ → ℚ → ℕ
  | [], _, bi, _ => bi
  | c :: cs, i, bi, bv =>
    let val := c.score - lam * maxSim sel c
    if bv < val then bestScan lam sel cs (i + 1) i val
    else bestScan lam sel cs (i + 1) bi bv

/-- The selection `while` loop of `MRCE_Lite.forward` lines 225-236, with fuel
(the loop removes one candidate per iteration, so `candidates.length` fuel is
enough). -/
def mmrGo {τ : Type} [DecidableEq τ] (lam : ℚ) (topk : ℕ) :
    ℕ → List (Cand τ) → List (Cand τ) → List (Cand τ)
  | 0, sel, _ => sel
  | fuel + 1, sel, cands =>
    if cands = [] ∨ ¬ sel.length < topk then sel
    else
      let bi := bestScan lam sel cands 0 0 negSentinel
      match cands[bi]? with
      | none => sel
      | some c => mmrGo lam topk fuel (sel ++ [c]) (cands.eraseIdx bi)

/-- The diversity-aware top-k selector of `MRCE_Lite.forward` lines 223-236. -/
def mmrSelect {τ : Type} [DecidableEq τ] (lam : ℚ) (topk : ℕ)
    (gated : List (Cand τ)) : List (Cand τ) :=
  mmrGo lam topk gated.length [] gated

/-- Decimal rendering of a natural number, for `f"Candidate {i}"`. -/
def natToStr (n : ℕ) : PyStr := (Nat.repr n).toList

/-- One payload dict built by `_as_completion_dicts` (`modules.py` lines 20-35). -/
structure JudgeItem where
  answer : PyStr
  completion : PyStr
  output : PyStr
  response : PyStr
  rationale : PyStr
  reasoning : PyStr
deriving DecidableEq

/-- `_as_completion_dicts` of `modules.py` lines 20-35. -/
def asCompletionDicts (cands : List PyStr) (labels : List PyStr) : List JudgeItem :=
  cands.enum.map (fun p =>
    let text := pyStrip p.2
    let name := if h : labels ≠ [] ∧ p.1 < labels.length
      then labels.get ⟨p.1, h.2⟩
      else "Candidate ".toList ++ natToStr (p.1 + 1)
    let gist := (text.takeWhile (fun c => c != '\n')).take 200
    { answer := text, completion := text, output := text, response := text,
      rationale := "Source: ".toList ++ name ++ ". One-line gist: ".toList ++ gist,
      reasoning := "From ".toList ++ name ++ ".".toList })

/-- Structured judge output, one optional field per attribute probed by
`_unpack_judge` (`modules.py` lines 47-69); `none` models a missing attribute. -/
structure JudgeOut where
  answer : Option PyStr
  best : Option PyStr
  completion : Option PyStr
  output : Option PyStr
  response : Option PyStr
  rationale : Option PyStr
  why : Option PyStr
  critique : Option PyStr
  explanation : Option PyStr
  reason : Option PyStr
deriving DecidableEq

/-- First Python-truthy entry of a key probe sequence (the `for ... if ans:
break ... else: ans = ""` idiom of `_unpack_judge`). -/
def firstTruthy : List (Option PyStr) → PyStr
  | [] => []
  | none :: rest => firstTruthy rest
  | some [] :: rest => firstTruthy rest
  | some (c :: cs) :: _ => c :: cs

/-- `_unpack_judge` of `modules.py` lines 47-69: first truthy answer-like field
and first truthy rationale-like field, each defaulting to `""`. -/
def unpackJudge (j : JudgeOut) : PyStr × PyStr :=
  (firstTruthy [j.answer, j.best, j.completion, j.output, j.response],
   firstTruthy [j.rationale, j.why, j.critique, j.explanation, j.reason])

/-- The `dspy.Prediction` returned by `MRCE_Lite.forward` (lines 261-265):
`payload` is `none` when the attribute is absent (`want_payload=False`) or
when the fallback judge path set it to `None`. -/
structure Prediction where
  vibe : PyStr
  candidates : List PyStr
  rationale : PyStr
  answer : PyStr
  candidate_labels : List PyStr
  payload : Option (List JudgeItem)
deriving DecidableEq

/-- Output of the fallback two-way judge (`modules.py` lines 254-259). -/
structure SimpleJudgeOut where
  answer : PyStr
  rationale : PyStr
deriving DecidableEq

/-- External collaborators of the pipeline.  Router, gate and answer calls are
modelled as total responders (the source wraps no handler around them); the
judge calls may raise. -/
structure MRCEOracles where
  router : PyStr → List Msg → PyStr → PyStr → PyStr → PyStr
  gate : Expert → PyStr → List Msg → PyStr → PyStr → PyStr → PyStr → GateOut
  expertAnswer : Expert → PyStr → List Msg → PyStr → PyStr → PyStr → PyStr → ExpertOut
  judge : PyStr → List JudgeItem → Except PyErr JudgeOut
  simpleJudge : PyStr → PyStr → PyStr → Except PyErr SimpleJudgeOut

/-- `MRCE_Lite` configuration resolved in `__init__`: `top_k`, `gate_min_conf`,
`gate_lambda` and the per-persona weight table. -/
structure MRCEConfig where
  top_k : ℕ
  gate_min_conf : ℚ
  gate_lambda : ℚ
  weights : List (PyStr × List (PyStr × ℚ))

/-- `MRCE_Lite._weight` (`modules.py` lines 202-204):
`w.get("base", 1.0) * w.get(mode, 1.0)` with `w = weights.get(persona, {})`. -/
def weightOf (cfg : MRCEConfig) (persona mode : PyStr) : ℚ :=
  let w := dictGetD cfg.weights persona []
  dictGetD w ("base".toList) 1 * dictGetD w mode 1

/-- Tag-set parsing of `modules.py` line 215:
`{t.strip().lower() for t in (tags or "").split(",") if t.strip()}`. -/
def parseTags (s : PyStr) : Finset PyStr :=
  ((s.splitOn ',').filterMap (fun t =>
    let ts := pyStrip t
    if ts = [] then none else some (pyLower ts))).toFinset

/-- The synthetic fallback candidate of `MRCE_Lite.forward` line 221:
first registry expert, score `1.0`, empty tags, empty hint. -/
def fallbackCand : Cand PyStr :=
  { expert := EXPERTS.headD { persona_name := [], persona_text := [] },
    score := 1, tags := ∅, hint := [] }

/-- `MRCE_Lite.forward` (`modules.py` lines 206-265): gate every registry
expert, fall back to the first expert when nobody gates in, select up to
`top_k` candidates by the MMR loop, run the selected experts, then judge, with
the two-way fallback judge on a judge exception (both failing propagates). -/
def MRCE_Lite.forward (cfg : MRCEConfig) (O : MRCEOracles) (query : PyStr)
    (history : List Msg) (goal mode : PyStr) (router_guidance : PyStr)
    (expert_hints : List (PyStr × PyStr)) (want_payload : Bool) :
    Except PyErr Prediction :=
  let vibe := O.router query history goal mode router_guidance
  let gating := EXPERTS.filterMap (fun ex =>
    let hint := dictGetD expert_hints (pyLower ex.persona_name) []
    let g := O.gate ex query history goal mode vibe hint
    if g.respond = "yes".toList ∧ cfg.gate_min_conf ≤ g.confidence then
      some { expert := ex,
             score := g.confidence * weightOf cfg ex.persona_name mode,
             tags := parseTags g.coverage_tags,
             hint := hint }
    else none)
  let gating2 := if gating = [] then [fallbackCand] else gating
  let selected := mmrSelect cfg.gate_lambda cfg.top_k gating2
  let answers := selected.map (fun it =>
    (O.expertAnswer it.expert query history goal mode vibe it.hint).answer)
  let labels := selected.map (fun it => it.expert.persona_name)
  let payload := asCompletionDicts answers labels
  match O.judge query payload with
  | .ok jo =>
      .ok { vibe := vibe, candidates := answers, rationale := (unpackJudge jo).2,
            answer := (unpackJudge jo).1, candidate_labels := labels,
            payload := if want_payload then some payload else none }
  | .error _ =>
      match O.simpleJudge query (answers.headD []) (answers.getD 1 []) with
      | .ok sj =>
          .ok { vibe := vibe, candidates := answers, rationale := sj.rationale,
                answer := sj.answer, candidate_labels := labels, payload := none }
      | .error e => .error e

/-! ## Data model of `orchestrator.py` -/

/-- Meta-critic output (`MetaCriticSig`): stop decision, three scores, and up
to four hint strings. -/
structure MetaOut where
  stop_label : PyStr
  route_score : ℚ
  quality_score : ℚ
  alignment_score : ℚ
  router_hint : PyStr
  analyst_hint : PyStr
  synth_hint : PyStr
  critic_hint : PyStr
deriving DecidableEq

/-- The `meta` sub-dict of a trace entry (`orchestrator.py` lines 85-94). -/
structure MetaRec where
  stop_label : PyStr
  route_score : ℚ
  quality_score : ℚ
  alignment_score : ℚ
  router_hint : PyStr
  analyst_hint : PyStr
  synth_hint : PyStr
  critic_hint : PyStr
deriving DecidableEq

/-- One `round_info` trace entry (`orchestrator.py` lines 77-96). -/
structure RoundRecord where
  round : ℕ
  mode : PyStr
  goal : PyStr
  vibe : PyStr
  candidates : List PyStr
  judge_rationale : PyStr
  judge_payload : Option (List JudgeItem)
  meta : MetaRec
  summary : PyStr
deriving DecidableEq

/-- `OrchestratorState` (`orchestrator.py` lines 12-20).  The `expert_hints`
dict has the three fixed keys `analyst`, `synth`, `critic`; they are modelled
as three fields. -/
structure OrchestratorState where
  history : List Msg
  summary : PyStr
  goal : PyStr
  mode : PyStr
  router_guidance : PyStr
  hint_analyst : PyStr
  hint_synth : PyStr
  hint_critic : PyStr
  round_idx : ℕ
deriving DecidableEq

/-- The default goal string `DEFAULT_ULTIMATE_GOAL`. -/
def DEFAULT_ULTIMATE_GOAL : PyStr := "Reach irreducible truth or contradiction.".toList

/-- A freshly constructed `OrchestratorState()`. -/
def freshState : OrchestratorState :=
  { history := [], summary := [], goal := DEFAULT_ULTIMATE_GOAL,
    mode := "verify".toList, router_guidance := [],
    hint_analyst := [], hint_synth := [], hint_critic := [], round_idx := 0 }

/-- The `expert_hints` dict passed to the pipeline, as an association list. -/
def hintsDict (st : OrchestratorState) : List (PyStr × PyStr) :=
  [("analyst".toList, st.hint_analyst), ("synth".toList, st.hint_synth),
   ("critic".toList, st.hint_critic)]

/-- The three collaborators an `Orchestrator` instance holds: the MRCE
pipeline, the summarizer and the meta-critic.  Each call may raise. -/
structure Collab where
  pipeline : PyStr → List Msg → PyStr → PyStr → PyStr → List (PyStr × PyStr) →
    Bool → Except PyErr Prediction
  summarizer : List Msg → PyStr → Except PyErr PyStr
  critic : PyStr → PyStr → PyStr → PyStr → PyStr → PyStr → PyStr → Except PyErr MetaOut

/-- Result of one iteration of the round loop.  On a raise the state as
mutated so far is retained (Python mutations persist across an unwind). -/
inductive StepRes where
  | ok (st : OrchestratorState) (rec : RoundRecord) (pred : Prediction) (stop : Bool)
  | fail (st : OrchestratorState) (e : PyErr)
deriving DecidableEq

/-- Hint application of `orchestrator.py` lines 64-71. -/
def applyHints (st : OrchestratorState) (m : MetaOut) : OrchestratorState :=
  { st with
    router_guidance := hintStep st.router_guidance m.router_hint,
    hint_analyst := hintStep st.hint_analyst m.analyst_hint,
    hint_synth := hintStep st.hint_synth m.synth_hint,
    hint_critic := hintStep st.hint_critic m.critic_hint }

/-- One iteration of the round loop (`orchestrator.py` lines 43-126):
increment `round_idx`, run the pipeline, summarize, meta-evaluate, apply
hints, append to history, build the trace entry, and report the stop
decision. -/
def roundBody (C : Collab) (query : PyStr) (want_payload : Bool)
    (st0 : OrchestratorState) : StepRes :=
  let st1 := { st0 with round_idx := st0.round_idx + 1 }
  match C.pipeline query st1.history st1.goal st1.mode st1.router_guidance
      (hintsDict st1) want_payload with
  | .error e => .fail st1 e
  | .ok pred =>
    match C.summarizer st1.history pred.answer with
    | .error e => .fail st1 e
    | .ok summary_out =>
      let st2 := { st1 with summary := summary_out }
      match C.critic query st2.goal st2.mode pred.vibe pred.answer pred.rationale
          st2.summary with
      | .error e => .fail st2 e
      | .ok meta =>
        let st3 := applyHints st2 meta
        let st4 := { st3 with history := st3.history ++
          [("user".toList, query), ("assistant".toList, pred.answer)] }
        let rec0 : RoundRecord :=
          { round := st4.round_idx, mode := st4.mode, goal := st4.goal,
            vibe := pred.vibe, candidates := pred.candidates,
            judge_rationale := pred.rationale, judge_payload := pred.payload,
            meta := { stop_label := meta.stop_label,
                      route_score := meta.route_score,
                      quality_score := meta.quality_score,
                      alignment_score := meta.alignment_score,
                      router_hint := meta.router_hint,
                      analyst_hint := meta.analyst_hint,
                      synth_hint := meta.synth_hint,
                      critic_hint := meta.critic_hint },
            summary := st4.summary }
        .ok st4 rec0 pred
          (meta.stop_label = "irreducible_truth".toList ∨
           meta.stop_label = "contradiction".toList : Prop)

/-- Outcome of the round loop: normal exit (with the Python locals `trace`,
`pred` and `final`) or an exception unwind. -/
inductive LoopOut where
  | finished (st : OrchestratorState) (trace : List RoundRecord)
      (lastPred : Option Prediction) (finalFromBreak : Option Prediction)
  | failed (st : OrchestratorState) (trace : List RoundRecord) (e : PyErr)
deriving DecidableEq

/-- The `for _ in range(self.max_rounds)` loop of `Orchestrator.forward`
(lines 43-126), by iteration count. -/
def runRounds (C : Collab) (query : PyStr) (want_payload : Bool) :
    ℕ → OrchestratorState → List RoundRecord → Option Prediction → LoopOut
  | 0, st, tr, lp => .finished st tr lp none
  | n + 1, st, tr, _lp =>
    match roundBody C query want_payload st with
    | .fail st2 e => .failed st2 tr e
    | .ok st2 rec0 pred stop =>
      if stop then .finished st2 (tr ++ [rec0]) (some pred) (some pred)
      else runRounds C query want_payload n st2 (tr ++ [rec0]) (some pred)

/-- Python `x if x is not None else y` for the `final`/`pred` locals. -/
def pyOr {α : Type} : Option α → Option α → Option α
  | some x, _ => some x
  | none, y => y

/-- The `dspy.Prediction` returned by `Orchestrator.forward` (lines 131-140). -/
structure FwdOut where
  answer : PyStr
  rationale : PyStr
  vibe : PyStr
  goal : PyStr
  mode : PyStr
  rounds : ℕ
  summary : PyStr
  trace : List RoundRecord
deriving DecidableEq

/-- Result of `Orchestrator.forward`: the updated `self.max_rounds`, the
mutated state, and either the returned prediction or the propagated
exception (with the local trace at unwind time). -/
inductive FwdRes where
  | ok (selfMax : ℤ) (st : OrchestratorState) (out : FwdOut)
  | err (selfMax : ℤ) (st : OrchestratorState) (trace : List RoundRecord) (e : PyErr)
deriving DecidableEq

/-- Python truthiness of an `Optional[str]` argument. -/
def truthyOptStr : Option PyStr → Bool
  | none => false
  | some [] => false
  | some (_ :: _) => true

/-- The truthy `goal`/`mode` overrides of `Orchestrator.forward` lines 33-36. -/
def initState (st : OrchestratorState) (goalArg modeArg : Option PyStr) :
    OrchestratorState :=
  let st1 := if truthyOptStr goalArg then { st with goal := goalArg.getD [] } else st
  if truthyOptStr modeArg then { st1 with mode := modeArg.getD [] } else st1

/-- `Orchestrator.forward` (`orchestrator.py` lines 30-141): apply the truthy
`goal`/`mode` overrides and the `max_rounds` override, run the round loop,
then build the final prediction from `final` (falling back to the loop-local
`pred`; if no round ever ran that local is unbound and Python raises
`UnboundLocalError`). -/
def Orchestrator.forward (C : Collab) (selfMax : ℤ) (query : PyStr)
    (st : OrchestratorState) (goalArg modeArg : Option PyStr)
    (maxRoundsArg : Option ℤ) (want_payload : Bool) : FwdRes :=
  let st := initState st goalArg modeArg
  let mx := maxRoundsArg.getD selfMax
  match runRounds C query want_payload mx.toNat st [] none with
  | .failed st2 tr e => .err mx st2 tr e
  | .finished st2 tr lp finalFromBreak =>
    match pyOr finalFromBreak lp with
    | none => .err mx st2 tr .unboundLocal
    | some f =>
      .ok mx st2
        { answer := f.answer, rationale := f.rationale, vibe := f.vibe,
          goal := st2.goal, mode := st2.mode, rounds := st2.round_idx,
          summary := st2.summary, trace := tr }

/-- State projection of a loop outcome. -/
def loopState : LoopOut → OrchestratorState
  | .finished st _ _ _ => st
  | .failed st _ _ => st

/-- State reached after at most `n` loop iterations from `st`. -/
def stateAfterRounds (C : Collab) (query : PyStr) (want_payload : Bool)
    (n : ℕ) (st : OrchestratorState) : OrchestratorState :=
  loopState (runRounds C query want_payload n st [] none)

/-- State projection of a round-body outcome. -/
def stepState : StepRes → OrchestratorState
  | .ok st _ _ _ => st
  | .fail st _ => st

/-- Wraps never-raising collaborators into a `Collab`. -/
def totalCollab
    (P : PyStr → List Msg → PyStr → PyStr → PyStr → List (PyStr × PyStr) →
      Bool → Prediction)
    (S : List Msg → PyStr → PyStr)
    (Cr : PyStr → PyStr → PyStr → PyStr → PyStr → PyStr → PyStr → MetaOut) : Collab :=
  { pipeline := fun a b c d e f g => .ok (P a b c d e f g),
    summarizer := fun a b => .ok (S a b),
    critic := fun a b c d e f g => .ok (Cr a b c d e f g) }

/-- The orchestrator wired to the real MRCE pipeline (`Orchestrator.__init__`
line 25: `self.pipeline = MRCE_Lite()`). -/
def collabOfMRCE (cfg : MRCEConfig) (O : MRCEOracles)
    (S : List Msg → PyStr → Except PyErr PyStr)
    (Cr : PyStr → PyStr → PyStr → PyStr → PyStr → PyStr → PyStr →
      Except PyErr MetaOut) : Collab :=
  { pipeline := MRCE_Lite.forward cfg O,
    summarizer := S,
    critic := Cr }

/-! ## Concrete collaborator instances for closed evaluations -/

/-- A fixed pipeline prediction used by the demonstration collaborators. -/
def demoPrediction : Prediction :=
  { vibe := "analytic".toList, candidates := ["c1".toList],
    rationale := "because".toList, answer := "ans".toList,
    candidate_labels := ["Analyst".toList], payload := none }

/-- A fixed meta-critic verdict that always continues and emits no hints. -/
def demoMeta : MetaOut :=
  { stop_label := "continue".toList, route_score := 1, quality_score := 1,
    alignment_score := 1, router_hint := [], analyst_hint := [],
    synth_hint := [], critic_hint := [] }

/-- A pipeline responder that always returns `demoPrediction`. -/
def demoPipe : PyStr → List Msg → PyStr → PyStr → PyStr → List (PyStr × PyStr) →
    Bool → Prediction := fun _ _ _ _ _ _ _ => demoPrediction

/-- A summarizer responder that always returns `"sum"`. -/
def demoSumm : List Msg → PyStr → PyStr := fun _ _ => "sum".toList

/-- A meta-critic responder that always returns `demoMeta`. -/
def demoCritic : PyStr → PyStr → PyStr → PyStr → PyStr → PyStr → PyStr →
    MetaOut := fun _ _ _ _ _ _ _ => demoMeta

/-- Collaborators that always respond and never raise. -/
def demoCollab : Collab := totalCollab demoPipe demoSumm demoCritic

/-- Same collaborators, but the summarizer raises on every call. -/
def failSummarizerCollab : Collab :=
  { pipeline := fun _ _ _ _ _ _ _ => .ok demoPrediction,
    summarizer := fun _ _ => .error (.raised "sumfail".toList),
    critic := fun _ _ _ _ _ _ _ => .ok demoMeta }

/-- Same collaborators, but the meta-critic raises on every call. -/
def failCriticCollab : Collab :=
  { pipeline := fun _ _ _ _ _ _ _ => .ok demoPrediction,
    summarizer := fun _ _ => .ok "sum".toList,
    critic := fun _ _ _ _ _ _ _ => .error (.raised "crfail".toList) }

/-- Default configuration (`experts.yaml` missing): `top_k=3`,
`gate_min_conf=0.0`, `gate_lambda=0.5`, empty weight table. -/
def demoCfg : MRCEConfig :=
  { top_k := 3, gate_min_conf := 0, gate_lambda := 1 / 2, weights := [] }

/-- A gate verdict that declines to respond. -/
def gateNo : GateOut := { respond := "no".toList, confidence := 0, coverage_tags := [] }

/-- A judge output whose only field is `answer="bar"`. -/
def judgeOutBar : JudgeOut :=
  { answer := some "bar".toList, best := none, completion := none, output := none,
    response := none, rationale := none, why := none, critique := none,
    explanation := none, reason := none }

/-- A router responder that always answers `"analytic"`. -/
def demoRouter : PyStr → List Msg → PyStr → PyStr → PyStr → PyStr :=
  fun _ _ _ _ _ => "analytic".toList

/-- A gate responder on which every expert declines. -/
def demoGateNo : Expert → PyStr → List Msg → PyStr → PyStr → PyStr → PyStr →
    GateOut := fun _ _ _ _ _ _ _ => gateNo

/-- An expert-answer responder that always answers `"foo"`. -/
def demoAnswerFoo : Expert → PyStr → List Msg → PyStr → PyStr → PyStr → PyStr →
    ExpertOut := fun _ _ _ _ _ _ _ => { answer := "foo".toList }

/-- Pipeline oracles: every expert gates `no`, executed experts answer `"foo"`,
and the judge answers the fresh string `"bar"`. -/
def demoOraclesJudgeBar : MRCEOracles :=
  { router := demoRouter, gate := demoGateNo, expertAnswer := demoAnswerFoo,
    judge := fun _ _ => .ok judgeOutBar,
    simpleJudge := fun _ _ _ => .error (.raised "nojudge".toList) }

/-! ## Round-loop invariants -/

/-- All four hint accumulators of a state are trimmed. -/
def Trimmed4 (st : OrchestratorState) : Prop :=
  Trimmed st.router_guidance ∧ Trimmed st.hint_analyst ∧
  Trimmed st.hint_synth ∧ Trimmed st.hint_critic

instance (st : OrchestratorState) : Decidable (Trimmed4 st) := by
  unfold Trimmed4; infer_instance

/-- Each hint accumulator of `a` is a prefix of the corresponding one of `b`. -/
def HintsExtend (a b : OrchestratorState) : Prop :=
  a.router_guidance <+: b.router_guidance ∧ a.hint_analyst <+: b.hint_analyst ∧
  a.hint_synth <+: b.hint_synth ∧ a.hint_critic <+: b.hint_critic

theorem hintsExtend_refl (a : OrchestratorState) : HintsExtend a a :=
  ⟨List.prefix_refl _, List.prefix_refl _, List.prefix_refl _, List.prefix_refl _⟩

theorem hintsExtend_trans {a b c : OrchestratorState}
    (h1 : HintsExtend a b) (h2 : HintsExtend b c) : HintsExtend a c :=
  ⟨h1.1.trans h2.1, h1.2.1.trans h2.2.1, h1.2.2.1.trans h2.2.2.1,
   h1.2.2.2.trans h2.2.2.2⟩

/-- One loop iteration always leaves `round_idx` incremented by one, whether it
completes or unwinds (the increment happens first, `orchestrator.py` line 44). -/
theorem roundBody_round_idx (C : Collab) (q : PyStr) (wp : Bool)
    (st : OrchestratorState) :
    (stepState (roundBody C q wp st)).round_idx = st.round_idx + 1 := by
  unfold roundBody
  dsimp only
  split
  · rfl
  · split
    · rfl
    · split
      · rfl
      · rfl

/-- One loop iteration never touches `goal` or `mode`. -/
theorem roundBody_goal_mode (C : Collab) (q : PyStr) (wp : Bool)
    (st : OrchestratorState) :
    (stepState (roundBody C q wp st)).goal = st.goal ∧
    (stepState (roundBody C q wp st)).mode = st.mode := by
  unfold roundBody
  dsimp only
  split
  · exact ⟨rfl, rfl⟩
  · split
    · exact ⟨rfl, rfl⟩
    · split
      · exact ⟨rfl, rfl⟩
      · exact ⟨rfl, rfl⟩

/-- One loop iteration only ever appends to the (trimmed) hint accumulators,
and keeps them trimmed. -/
theorem roundBody_hints (C : Collab) (q : PyStr) (wp : Bool)
    (st : OrchestratorState) (h : Trimmed4 st) :
    HintsExtend st (stepState (roundBody C q wp st)) ∧
    Trimmed4 (stepState (roundBody C q wp st)) := by
  obtain ⟨h1, h2, h3, h4⟩ := h
  unfold roundBody
  dsimp only
  split
  · exact ⟨hintsExtend_refl _, h1, h2, h3, h4⟩
  · split
    · exact ⟨hintsExtend_refl _, h1, h2, h3, h4⟩
    · split
      · exact ⟨hintsExtend_refl _, h1, h2, h3, h4⟩
      · refine ⟨⟨?_, ?_, ?_, ?_⟩, ?_, ?_, ?_, ?_⟩
        · exact (hintStep_extends h1 _).1
        · exact (hintStep_extends h2 _).1
        · exact (hintStep_extends h3 _).1
        · exact (hintStep_extends h4 _).1
        · exact (hintStep_extends h1 _).2
        · exact (hintStep_extends h2 _).2
        · exact (hintStep_extends h3 _).2
        · exact (hintStep_extends h4 _).2

/-- With never-raising collaborators, one loop iteration always completes, and
the trace entry snapshots the round prediction and post-round state. -/
theorem roundBody_total_ok
    (P : PyStr → List Msg → PyStr → PyStr → PyStr → List (PyStr × PyStr) →
      Bool → Prediction)
    (S : List Msg → PyStr → PyStr)
    (Cr : PyStr → PyStr → PyStr → PyStr → PyStr → PyStr → PyStr → MetaOut)
    (q : PyStr) (wp : Bool) (st : OrchestratorState) :
    ∃ st2 rec0 pred stop,
      roundBody (totalCollab P S Cr) q wp st = .ok st2 rec0 pred stop ∧
      st2.round_idx = st.round_idx + 1 ∧
      rec0.judge_rationale = pred.rationale ∧ rec0.vibe = pred.vibe ∧
      rec0.summary = st2.summary ∧ rec0.goal = st2.goal ∧ rec0.mode = st2.mode ∧
      rec0.round = st2.round_idx :=
  ⟨_, _, _, _, rfl, rfl, rfl, rfl, rfl, rfl, rfl, rfl⟩

/-- Full characterisation of the round loop under never-raising collaborators:
it finishes, appends one trace entry per completed round, advances `round_idx`
by the number of completed rounds (at most the fuel, at least one round when
there is fuel), and the prediction used as `final` matches the last trace
entry. -/
theorem runRounds_total
    (P : PyStr → List Msg → PyStr → PyStr → PyStr → List (PyStr × PyStr) →
      Bool → Prediction)
    (S : List Msg → PyStr → PyStr)
    (Cr : PyStr → PyStr → PyStr → PyStr → PyStr → PyStr → PyStr → MetaOut)
    (q : PyStr) (wp : Bool) (n : ℕ) :
    ∀ (st : OrchestratorState) (tr : List RoundRecord) (lp : Option Prediction),
    ∃ st2 nw lp2 fin,
      runRounds (totalCollab P S Cr) q wp n st tr lp
        = .finished st2 (tr ++ nw) lp2 fin ∧
      st2.round_idx = st.round_idx + nw.length ∧
      nw.length ≤ n ∧
      (1 ≤ n → nw ≠ []) ∧
      ((nw = [] ∧ st2 = st ∧ lp2 = lp ∧ fin = none) ∨
       (∃ p r, pyOr fin lp2 = some p ∧ nw.getLast? = some r ∧
         r.judge_rationale = p.rationale ∧ r.vibe = p.vibe ∧
         r.summary = st2.summary ∧ r.goal = st2.goal ∧ r.mode = st2.mode ∧
         r.round = st2.round_idx)) := by
  induction n with
  | zero =>
    intro st tr lp
    exact ⟨st, [], lp, none, by simp [runRounds], by simp, by simp,
      by intro h; exact absurd h (by omega), Or.inl ⟨rfl, rfl, rfl, rfl⟩⟩
  | succ n ih =>
    intro st tr lp
    obtain ⟨st4, rec0, pred, stop, hb, hidx, hr1, hr2, hr3, hr4, hr5, hr6⟩ :=
      roundBody_total_ok P S Cr q wp st
    by_cases hstop : stop = true
    · refine ⟨st4, [rec0], some pred, some pred, ?_, by simpa using hidx, by simp,
        fun _ => by simp, Or.inr ⟨pred, rec0, rfl, by simp, hr1, hr2, hr3, hr4, hr5, hr6⟩⟩
      rw [runRounds, hb]
      simp [hstop]
    · obtain ⟨st2, nw, lp2, fin, hrun, hidx2, hlen, _, hd⟩ :=
        ih st4 (tr ++ [rec0]) (some pred)
      refine ⟨st2, rec0 :: nw, lp2, fin, ?_, by simp only [List.length_cons]; omega,
        by simp only [List.length_cons]; omega, fun _ => by simp, ?_⟩
      · rw [runRounds, hb]
        simp only [hstop, if_false]
        rw [hrun, List.append_assoc]
        rfl
      · rcases hd with ⟨hnw, hst, hlp, hfin⟩ | ⟨p, r, hpy, hlast, p1, p2, p3, p4, p5, p6⟩
        · subst hnw hst hlp hfin
          exact Or.inr ⟨pred, rec0, rfl, by simp, hr1, hr2, hr3, hr4, hr5, hr6⟩
        · have hnwne : nw ≠ [] := by
            intro hz; rw [hz] at hlast; simp at hlast
          obtain ⟨x, xs, rfl⟩ := List.exists_cons_of_ne_nil hnwne
          exact Or.inr ⟨p, r, hpy, by simpa using hlast, p1, p2, p3, p4, p5, p6⟩

/-- One unit of fuel performs exactly one loop iteration (as far as the state
is concerned). -/
theorem loopState_one (C : Collab) (q : PyStr) (wp : Bool)
    (st : OrchestratorState) (tr : List RoundRecord) (lp : Option Prediction) :
    loopState (runRounds C q wp 1 st tr lp) = stepState (roundBody C q wp st) := by
  rw [runRounds]
  cases hb : roundBody C q wp st with
  | fail st2 e => rfl
  | ok st2 rec0 pred stop =>
    by_cases hstop : stop = true
    · simp [hstop, loopState, stepState]
    · simp [hstop, runRounds, loopState, stepState]

/-- Between consecutive fuel values the reached state either performs exactly
one further round (extending the trimmed hint accumulators, `round_idx` up by
one) or is unchanged. -/
theorem loopState_succ (C : Collab) (q : PyStr) (wp : Bool) (k : ℕ) :
    ∀ (st : OrchestratorState) (tr : List RoundRecord) (lp : Option Prediction),
    Trimmed4 st →
      HintsExtend (loopState (runRounds C q wp k st tr lp))
        (loopState (runRounds C q wp (k + 1) st tr lp)) ∧
      Trimmed4 (loopState (runRounds C q wp k st tr lp)) ∧
      ((loopState (runRounds C q wp (k + 1) st tr lp)).round_idx =
         (loopState (runRounds C q wp k st tr lp)).round_idx + 1 ∨
       loopState (runRounds C q wp (k + 1) st tr lp) =
         loopState (runRounds C q wp k st tr lp)) := by
  induction k with
  | zero =>
    intro st tr lp htrim
    have h1 : loopState (runRounds C q wp 0 st tr lp) = st := rfl
    rw [h1, loopState_one]
    refine ⟨(roundBody_hints C q wp st htrim).1, htrim, Or.inl ?_⟩
    exact roundBody_round_idx C q wp st
  | succ k ih =>
    intro st tr lp htrim
    have hstep := roundBody_hints C q wp st htrim
    rw [runRounds, runRounds]
    cases hb : roundBody C q wp st with
    | fail st2 e =>
      have hst2 : stepState (roundBody C q wp st) = st2 := by rw [hb]; rfl
      rw [hst2] at hstep
      dsimp only [loopState]
      exact And.intro (hintsExtend_refl _) (And.intro hstep.2 (Or.inr rfl))
    | ok st2 rec0 pred stop =>
      have hst2 : stepState (roundBody C q wp st) = st2 := by rw [hb]; rfl
      rw [hst2] at hstep
      cases stop with
      | true =>
        simp only [reduceIte]
        dsimp only [loopState]
        exact And.intro (hintsExtend_refl _) (And.intro hstep.2 (Or.inr (by trivial)))
      | false =>
        simp only [Bool.false_eq_true, if_false]
        exact ih st2 (tr ++ [rec0]) (some pred) hstep.2

/-- The round loop never writes `goal` or `mode`. -/
theorem runRounds_goal_mode (C : Collab) (q : PyStr) (wp : Bool) (n : ℕ) :
    ∀ (st : OrchestratorState) (tr : List RoundRecord) (lp : Option Prediction),
    (loopState (runRounds C q wp n st tr lp)).goal = st.goal ∧
    (loopState (runRounds C q wp n st tr lp)).mode = st.mode := by
  induction n with
  | zero => intro st tr lp; exact ⟨rfl, rfl⟩
  | succ n ih =>
    intro st tr lp
    have hgm := roundBody_goal_mode C q wp st
    rw [runRounds]
    cases hb : roundBody C q wp st with
    | fail st2 e =>
      have hst2 : stepState (roundBody C q wp st) = st2 := by rw [hb]; rfl
      rw [hst2] at hgm
      exact hgm
    | ok st2 rec0 pred stop =>
      have hst2 : stepState (roundBody C q wp st) = st2 := by rw [hb]; rfl
      rw [hst2] at hgm
      cases stop with
      | true =>
        simp only [reduceIte]
        exact hgm
      | false =>
        simp only [Bool.false_eq_true, if_false]
        have := ih st2 (tr ++ [rec0]) (some pred)
        exact ⟨this.1.trans hgm.1, this.2.trans hgm.2⟩

/-- `self.max_rounds` projection of a `forward` result. -/
def fwdSelfMax : FwdRes → ℤ
  | .ok m _ _ => m
  | .err m _ _ _ => m

/-- Final-state projection of a `forward` result. -/
def fwdState : FwdRes → OrchestratorState
  | .ok _ st _ => st
  | .err _ st _ _ => st

theorem forward_state_eq (C : Collab) (selfMax : ℤ) (q : PyStr)
    (st : OrchestratorState) (goalArg modeArg : Option PyStr)
    (maxRoundsArg : Option ℤ) (wp : Bool) :
    fwdState (Orchestrator.forward C selfMax q st goalArg modeArg maxRoundsArg wp)
      = loopState (runRounds C q wp (maxRoundsArg.getD selfMax).toNat
          (initState st goalArg modeArg) [] none) ∧
    fwdSelfMax (Orchestrator.forward C selfMax q st goalArg modeArg maxRoundsArg wp)
      = maxRoundsArg.getD selfMax := by
  simp only [Orchestrator.forward]
  split
  · rename_i st2 tr e heq
    rw [heq]
    exact ⟨rfl, rfl⟩
  · rename_i st2 tr lp fin heq
    rw [heq]
    split
    · exact ⟨rfl, rfl⟩
    · exact ⟨rfl, rfl⟩

/-- The field updates performed by `initState`. -/
theorem initState_fields (st : OrchestratorState) (goalArg modeArg : Option PyStr) :
    (initState st goalArg modeArg).goal
      = (if truthyOptStr goalArg then goalArg.getD [] else st.goal) ∧
    (initState st goalArg modeArg).mode
      = (if truthyOptStr modeArg then modeArg.getD [] else st.mode) ∧
    (initState st goalArg modeArg).round_idx = st.round_idx ∧
    (initState st goalArg modeArg).history = st.history ∧
    (initState st goalArg modeArg).summary = st.summary ∧
    (initState st goalArg modeArg).router_guidance = st.router_guidance ∧
    (initState st goalArg modeArg).hint_analyst = st.hint_analyst ∧
    (initState st goalArg modeArg).hint_synth = st.hint_synth ∧
    (initState st goalArg modeArg).hint_critic = st.hint_critic := by
  unfold initState
  split <;> split <;>
    exact ⟨rfl, rfl, rfl, rfl, rfl, rfl, rfl, rfl, rfl⟩

/-! ## Selector counting -/

/-- The argmax scan returns an index below `m` whenever its running best index
is and the remaining positions stay below `m`. -/
theorem bestScan_lt {τ : Type} [DecidableEq τ] (lam : ℚ) (sel : List (Cand τ)) :
    ∀ (cands : List (Cand τ)) (i bi m : ℕ) (bv : ℚ), bi < m →
      i + cands.length ≤ m → bestScan lam sel cands i bi bv < m := by
  intro cands
  induction cands with
  | nil =>
    intro i bi m bv h1 _
    simpa [bestScan] using h1
  | cons c cs ih =>
    intro i bi m bv h1 h2
    rw [bestScan]
    simp only [List.length_cons] at h2
    split
    · exact ih (i + 1) i m _ (by omega) (by omega)
    · exact ih (i + 1) bi m bv h1 (by omega)

/-- The selection loop picks exactly `min (topk - |selected|) |candidates|`
further candidates when given enough fuel. -/
theorem mmrGo_length {τ : Type} [DecidableEq τ] (lam : ℚ) (topk : ℕ) :
    ∀ (fuel : ℕ) (sel cands : List (Cand τ)), cands.length ≤ fuel →
      (mmrGo lam topk fuel sel cands).length
        = sel.length + min (topk - sel.length) cands.length := by
  intro fuel
  induction fuel with
  | zero =>
    intro sel cands h
    have hc : cands = [] := List.length_eq_zero.mp (Nat.le_zero.mp h)
    subst hc
    simp [mmrGo]
  | succ fuel ih =>
    intro sel cands h
    rw [mmrGo]
    dsimp only
    split
    · rename_i hcond
      rcases hcond with hnil | hfull
      · subst hnil
        simp
      · have : topk - sel.length = 0 := by omega
        simp [this]
    · rename_i hcond
      push_neg at hcond
      obtain ⟨hcne, hlt⟩ := hcond
      have hpos : 0 < cands.length := List.length_pos.mpr hcne
      have hbi : bestScan lam sel cands 0 0 negSentinel < cands.length :=
        bestScan_lt lam sel cands 0 0 cands.length negSentinel hpos (by omega)
      rw [List.getElem?_eq_getElem hbi]
      dsimp only
      rw [ih _ _ (by rw [List.length_eraseIdx]; simp only [hbi, if_true]; omega)]
      rw [List.length_eraseIdx]
      simp only [hbi, if_true, List.length_append, List.length_cons, List.length_nil]
      omega

/-! ## Claim theorems -/

/-- Claim C9: for every list of gated candidates and every `top_k`, the
selector returns at most `top_k` candidates and at least
`min(top_k, number of gated candidates)` candidates. -/
theorem C9_selector_count {τ : Type} [DecidableEq τ] (lam : ℚ) (topk : ℕ)
    (gated : List (Cand τ)) :
    (mmrSelect lam topk gated).length ≤ topk ∧
    min topk gated.length ≤ (mmrSelect lam topk gated).length := by
  have h := mmrGo_length lam topk gated.length [] gated (le_refl _)
  unfold mmrSelect
  rw [h]
  simp only [List.length_nil]
  omega

/-- Claim C10: `Orchestrator.forward` persistently overwrites `self.max_rounds`
with a non-`None` `max_rounds` argument, `state.goal` with a truthy `goal`
argument and `state.mode` with a truthy `mode` argument, and leaves each field
unchanged when the argument is omitted or falsy; the returned handles carry the
new values for subsequent calls. -/
theorem C10_arg_overrides (C : Collab) (selfMax : ℤ) (q : PyStr)
    (st : OrchestratorState) (goalArg modeArg : Option PyStr)
    (maxRoundsArg : Option ℤ) (wp : Bool) :
    fwdSelfMax (Orchestrator.forward C selfMax q st goalArg modeArg maxRoundsArg wp)
      = maxRoundsArg.getD selfMax ∧
    (fwdState (Orchestrator.forward C selfMax q st goalArg modeArg
        maxRoundsArg wp)).goal
      = (if truthyOptStr goalArg then goalArg.getD [] else st.goal) ∧
    (fwdState (Orchestrator.forward C selfMax q st goalArg modeArg
        maxRoundsArg wp)).mode
      = (if truthyOptStr modeArg then modeArg.getD [] else st.mode) := by
  obtain ⟨hs, hm⟩ := forward_state_eq C selfMax q st goalArg modeArg maxRoundsArg wp
  refine ⟨hm, ?_, ?_⟩
  · rw [hs,
      (runRounds_goal_mode C q wp (maxRoundsArg.getD selfMax).toNat
        (initState st goalArg modeArg) [] none).1,
      (initState_fields st goalArg modeArg).1]
  · rw [hs,
      (runRounds_goal_mode C q wp (maxRoundsArg.getD selfMax).toNat
        (initState st goalArg modeArg) [] none).2,
      (initState_fields st goalArg modeArg).2.1]

/-- Between consecutive fuel values the reached state either performs exactly
one further round (`round_idx` up by exactly one) or is unchanged — for any
collaborators, raising or not. -/
theorem loopState_succ_round_idx (C : Collab) (q : PyStr) (wp : Bool) (k : ℕ) :
    ∀ (st : OrchestratorState) (tr : List RoundRecord) (lp : Option Prediction),
      (loopState (runRounds C q wp (k + 1) st tr lp)).round_idx =
        (loopState (runRounds C q wp k st tr lp)).round_idx + 1 ∨
      loopState (runRounds C q wp (k + 1) st tr lp) =
        loopState (runRounds C q wp k st tr lp) := by
  induction k with
  | zero =>
    intro st tr lp
    have h1 : loopState (runRounds C q wp 0 st tr lp) = st := rfl
    rw [h1, loopState_one]
    exact Or.inl (roundBody_round_idx C q wp st)
  | succ k ih =>
    intro st tr lp
    rw [runRounds, runRounds]
    cases hb : roundBody C q wp st with
    | fail st2 e =>
      dsimp only [loopState]
      exact Or.inr (by trivial)
    | ok st2 rec0 pred stop =>
      cases stop with
      | true =>
        simp only [reduceIte]
        exact Or.inr (by trivial)
      | false =>
        simp only [Bool.false_eq_true, if_false]
        exact ih st2 (tr ++ [rec0]) (some pred)

/-- Claim C8: from a fresh state, `round_idx` after `N` completed rounds is
exactly `N` (the trace length), it moves up by exactly one on each loop
iteration (never resetting), and the loop completes at most `max_rounds`
rounds even when the meta-critic always answers `continue`. -/
theorem C8_round_idx
    (P : PyStr → List Msg → PyStr → PyStr → PyStr → List (PyStr × PyStr) →
      Bool → Prediction)
    (S : List Msg → PyStr → PyStr)
    (Cr : PyStr → PyStr → PyStr → PyStr → PyStr → PyStr → PyStr → MetaOut)
    (q : PyStr) (wp : Bool) (mr : ℤ) (st : OrchestratorState)
    (h0 : st.round_idx = 0) :
    (∀ k : ℕ,
      (stateAfterRounds (totalCollab P S Cr) q wp (k + 1) st).round_idx
        = (stateAfterRounds (totalCollab P S Cr) q wp k st).round_idx + 1 ∨
      stateAfterRounds (totalCollab P S Cr) q wp (k + 1) st
        = stateAfterRounds (totalCollab P S Cr) q wp k st) ∧
    (∃ st2 tr lp fin,
      runRounds (totalCollab P S Cr) q wp mr.toNat st [] none
        = .finished st2 tr lp fin ∧
      st2.round_idx = tr.length ∧ tr.length ≤ mr.toNat) := by
  constructor
  · intro k
    exact loopState_succ_round_idx (totalCollab P S Cr) q wp k st [] none
  · obtain ⟨st2, nw, lp2, fin, hrun, hidx, hlen, -, -⟩ :=
      runRounds_total P S Cr q wp mr.toNat st [] none
    refine ⟨st2, nw, lp2, fin, by simpa using hrun, ?_, hlen⟩
    rw [hidx, h0, Nat.zero_add]

/-- Witness for claim C8 at a fresh state, `max_rounds = 3`. -/
theorem C8_round_idx_witness :
    freshState.round_idx = 0 ∧
    ((∀ k : ℕ,
      (stateAfterRounds (totalCollab demoPipe demoSumm demoCritic) "q".toList
          false (k + 1) freshState).round_idx
        = (stateAfterRounds (totalCollab demoPipe demoSumm demoCritic) "q".toList
            false k freshState).round_idx + 1 ∨
      stateAfterRounds (totalCollab demoPipe demoSumm demoCritic) "q".toList
          false (k + 1) freshState
        = stateAfterRounds (totalCollab demoPipe demoSumm demoCritic) "q".toList
            false k freshState) ∧
    (∃ st2 tr lp fin,
      runRounds (totalCollab demoPipe demoSumm demoCritic) "q".toList false
          (3 : ℤ).toNat freshState [] none
        = .finished st2 tr lp fin ∧
      st2.round_idx = tr.length ∧ tr.length ≤ (3 : ℤ).toNat)) :=
  ⟨rfl, C8_round_idx demoPipe demoSumm demoCritic "q".toList false 3 freshState rfl⟩

/-- Claim C1 (amended): whenever at least one round runs (`max_rounds ≥ 1`) and
the collaborator calls succeed, `Orchestrator.forward` returns a prediction
derived from the last completed round — its rationale, vibe and summary match
the last trace entry — together with the full trace (one record per completed
round, at least one, at most `max_rounds`), the final summary and the final
round count. -/
theorem C1_terminal_contract
    (P : PyStr → List Msg → PyStr → PyStr → PyStr → List (PyStr × PyStr) →
      Bool → Prediction)
    (S : List Msg → PyStr → PyStr)
    (Cr : PyStr → PyStr → PyStr → PyStr → PyStr → PyStr → PyStr → MetaOut)
    (selfMax : ℤ) (q : PyStr) (wp : Bool) (st : OrchestratorState)
    (goalArg modeArg : Option PyStr) (mr : ℤ)
    (h0 : st.round_idx = 0) (hmr : 1 ≤ mr) :
    ∃ st2 out r,
      Orchestrator.forward (totalCollab P S Cr) selfMax q st goalArg modeArg
          (some mr) wp
        = FwdRes.ok mr st2 out ∧
      out.trace ≠ [] ∧
      out.trace.getLast? = some r ∧
      out.rationale = r.judge_rationale ∧ out.vibe = r.vibe ∧
      out.summary = r.summary ∧ out.summary = st2.summary ∧
      out.rounds = out.trace.length ∧ out.trace.length ≤ mr.toNat := by
  obtain ⟨st2, nw, lp2, fin, hrun, hidx, hlen, hne, hd⟩ :=
    runRounds_total P S Cr q wp mr.toNat (initState st goalArg modeArg) [] none
  have hfuel : 1 ≤ mr.toNat := by omega
  have hnwne : nw ≠ [] := hne hfuel
  rcases hd with ⟨hnw, -, -, -⟩ | ⟨p, r, hpy, hlast, p1, p2, p3, -, -, -⟩
  · exact absurd hnw hnwne
  simp only [List.nil_append] at hrun
  refine ⟨st2,
    { answer := p.answer, rationale := p.rationale, vibe := p.vibe,
      goal := st2.goal, mode := st2.mode, rounds := st2.round_idx,
      summary := st2.summary, trace := nw }, r, ?_, hnwne, hlast, p1.symm,
    p2.symm, p3.symm, rfl, ?_, hlen⟩
  · simp only [Orchestrator.forward, Option.getD_some]
    rw [hrun]
    dsimp only
    rw [hpy]
  · dsimp only
    rw [hidx, (initState_fields st goalArg modeArg).2.2.1, h0, Nat.zero_add]

/-- Witness for claim C1 with the demonstration collaborators, `max_rounds = 2`. -/
theorem C1_terminal_contract_witness :
    freshState.round_idx = 0 ∧ (1 : ℤ) ≤ 2 ∧
    (∃ st2 out r,
      Orchestrator.forward (totalCollab demoPipe demoSumm demoCritic) 4
          "q".toList freshState none none (some 2) false
        = FwdRes.ok 2 st2 out ∧
      out.trace ≠ [] ∧
      out.trace.getLast? = some r ∧
      out.rationale = r.judge_rationale ∧ out.vibe = r.vibe ∧
      out.summary = r.summary ∧ out.summary = st2.summary ∧
      out.rounds = out.trace.length ∧ out.trace.length ≤ (2 : ℤ).toNat) :=
  ⟨rfl, by omega,
    C1_terminal_contract demoPipe demoSumm demoCritic 4 "q".toList false
      freshState none none 2 rfl (by omega)⟩

/-- Claim C1 counterexample: with `max_rounds = 0` the loop never runs, the
local `pred` is unbound and the call raises `UnboundLocalError` instead of
returning a result. -/
theorem C1_counterexample :
    Orchestrator.forward demoCollab 4 "q".toList freshState none none
        (some 0) false
      = FwdRes.err 0 freshState [] PyErr.unboundLocal := rfl

/-- Claim C6: starting from trimmed hint accumulators (as in a fresh state),
each of `router_guidance` and the three `expert_hints` entries at round `N` is
a prefix of (or equal to) its value at round `N + 1` — hints are appended
newline-joined and trimmed, never overwritten. -/
theorem C6_hints_append_only (C : Collab) (q : PyStr) (wp : Bool)
    (st : OrchestratorState) (htrim : Trimmed4 st) (N : ℕ) :
    (stateAfterRounds C q wp N st).router_guidance <+:
      (stateAfterRounds C q wp (N + 1) st).router_guidance ∧
    (stateAfterRounds C q wp N st).hint_analyst <+:
      (stateAfterRounds C q wp (N + 1) st).hint_analyst ∧
    (stateAfterRounds C q wp N st).hint_synth <+:
      (stateAfterRounds C q wp (N + 1) st).hint_synth ∧
    (stateAfterRounds C q wp N st).hint_critic <+:
      (stateAfterRounds C q wp (N + 1) st).hint_critic :=
  (loopState_succ C q wp N st [] none htrim).1

/-- Witness for claim C6 at a fresh state and round 1. -/
theorem C6_hints_append_only_witness :
    Trimmed4 freshState ∧
    ((stateAfterRounds demoCollab "q".toList false 1 freshState).router_guidance <+:
      (stateAfterRounds demoCollab "q".toList false 2 freshState).router_guidance ∧
    (stateAfterRounds demoCollab "q".toList false 1 freshState).hint_analyst <+:
      (stateAfterRounds demoCollab "q".toList false 2 freshState).hint_analyst ∧
    (stateAfterRounds demoCollab "q".toList false 1 freshState).hint_synth <+:
      (stateAfterRounds demoCollab "q".toList false 2 freshState).hint_synth ∧
    (stateAfterRounds demoCollab "q".toList false 1 freshState).hint_critic <+:
      (stateAfterRounds demoCollab "q".toList false 2 freshState).hint_critic) :=
  ⟨by decide, C6_hints_append_only demoCollab "q".toList false freshState
    (by decide) 1⟩

/-- Claim C7 (code divergence): a raising summarizer or meta-critic is not
caught anywhere — the exception propagates out of `Orchestrator.forward`,
aborting the call, with no `stop_label = continue` default. -/
theorem C7_failure_propagates :
    (Orchestrator.forward failSummarizerCollab 4 "q".toList freshState none none
        (some 3) false
      = FwdRes.err 3 { freshState with round_idx := 1 } []
          (PyErr.raised "sumfail".toList)) ∧
    (Orchestrator.forward failCriticCollab 4 "q".toList freshState none none
        (some 3) false
      = FwdRes.err 3 { freshState with round_idx := 1, summary := "sum".toList }
          [] (PyErr.raised "crfail".toList)) :=
  ⟨rfl, rfl⟩

/-- When both the primary judge and the fallback judge raise on every call,
`MRCE_Lite.forward` propagates the fallback judge failure. -/
theorem MRCE_judges_fail (cfg : MRCEConfig)
    (R : PyStr → List Msg → PyStr → PyStr → PyStr → PyStr)
    (G : Expert → PyStr → List Msg → PyStr → PyStr → PyStr → PyStr → GateOut)
    (E : Expert → PyStr → List Msg → PyStr → PyStr → PyStr → PyStr → ExpertOut)
    (ea eb : PyErr) (q : PyStr) (h : List Msg) (g m rg : PyStr)
    (eh : List (PyStr × PyStr)) (wp : Bool) :
    MRCE_Lite.forward cfg
      { router := R, gate := G, expertAnswer := E,
        judge := fun _ _ => .error ea, simpleJudge := fun _ _ _ => .error eb }
      q h g m rg eh wp = .error eb := rfl

/-- A pipeline call that raises makes the round fail right after the
`round_idx` increment, with every other state field untouched and no trace
entry. -/
theorem roundBody_pipeline_error (C : Collab) (q : PyStr) (wp : Bool)
    (st : OrchestratorState) (e : PyErr)
    (h : ∀ a b c d f g k, C.pipeline a b c d f g k = .error e) :
    roundBody C q wp st = .fail { st with round_idx := st.round_idx + 1 } e := by
  simp only [roundBody, h]

/-- Claim C3 (amended): if the judge stage fails hard (primary judge and
fallback judge both raise), the exception propagates out of
`Orchestrator.forward`; `history`, `summary`, `router_guidance` and all
`expert_hints` keep their pre-round values and no trace entry is recorded, but
`round_idx` keeps the increment performed at round entry. -/
theorem C3_judge_failure_propagates (cfg : MRCEConfig)
    (R : PyStr → List Msg → PyStr → PyStr → PyStr → PyStr)
    (G : Expert → PyStr → List Msg → PyStr → PyStr → PyStr → PyStr → GateOut)
    (E : Expert → PyStr → List Msg → PyStr → PyStr → PyStr → PyStr → ExpertOut)
    (ea eb : PyErr)
    (S : List Msg → PyStr → Except PyErr PyStr)
    (Cr : PyStr → PyStr → PyStr → PyStr → PyStr → PyStr → PyStr →
      Except PyErr MetaOut)
    (selfMax mr : ℤ) (q : PyStr) (wp : Bool) (st : OrchestratorState)
    (hmr : 1 ≤ mr) :
    Orchestrator.forward
        (collabOfMRCE cfg
          { router := R, gate := G, expertAnswer := E,
            judge := fun _ _ => .error ea, simpleJudge := fun _ _ _ => .error eb }
          S Cr)
        selfMax q st none none (some mr) wp
      = FwdRes.err mr { st with round_idx := st.round_idx + 1 } [] eb := by
  have hpipe : ∀ a b c d f g k,
      (collabOfMRCE cfg
        { router := R, gate := G, expertAnswer := E,
          judge := fun _ _ => .error ea, simpleJudge := fun _ _ _ => .error eb }
        S Cr).pipeline a b c d f g k = .error eb :=
    fun a b c d f g k => MRCE_judges_fail cfg R G E ea eb a b c d f g k
  obtain ⟨k, hk⟩ : ∃ k, mr.toNat = k + 1 := ⟨mr.toNat - 1, by omega⟩
  have hinit : initState st none none = st := rfl
  simp only [Orchestrator.forward, Option.getD_some, hinit]
  rw [hk, runRounds, roundBody_pipeline_error _ _ _ _ _ hpipe]

/-- The judge oracles that raise on every call. -/
def failingJudgeOracles : MRCEOracles :=
  { router := demoRouter, gate := demoGateNo, expertAnswer := demoAnswerFoo,
    judge := fun _ _ => .error (PyErr.raised "j1".toList),
    simpleJudge := fun _ _ _ => .error (PyErr.raised "j2".toList) }

/-- Witness for claim C3 at a fresh state, `max_rounds = 3`. -/
theorem C3_judge_failure_witness :
    (1 : ℤ) ≤ 3 ∧
    Orchestrator.forward
        (collabOfMRCE demoCfg failingJudgeOracles
          (fun _ _ => .ok "sum".toList) (fun _ _ _ _ _ _ _ => .ok demoMeta))
        4 "q".toList freshState none none (some 3) false
      = FwdRes.err 3 { freshState with round_idx := freshState.round_idx + 1 } []
          (PyErr.raised "j2".toList) :=
  ⟨by omega,
    C3_judge_failure_propagates demoCfg demoRouter demoGateNo demoAnswerFoo
      (PyErr.raised "j1".toList) (PyErr.raised "j2".toList)
      (fun _ _ => .ok "sum".toList) (fun _ _ _ _ _ _ _ => .ok demoMeta)
      4 3 "q".toList false freshState (by omega)⟩

/-- Claim C3 counterexample: on a hard judge failure the exception does
propagate and no trace entry is recorded, but the state passed in is *not*
left unmodified — `round_idx` has moved from 0 to 1. -/
theorem C3_counterexample :
    Orchestrator.forward
        (collabOfMRCE demoCfg failingJudgeOracles
          (fun _ _ => .ok "sum".toList) (fun _ _ _ _ _ _ _ => .ok demoMeta))
        4 "q".toList freshState none none (some 3) false
      = FwdRes.err 3 { freshState with round_idx := 1 } []
          (PyErr.raised "j2".toList) ∧
    ({ freshState with round_idx := 1 } : OrchestratorState).round_idx
      ≠ freshState.round_idx :=
  ⟨rfl, by decide⟩

/-- Claim C2 counterexample: the judge stage returns the judge's `answer` field
verbatim; here the judge answers `"bar"`, which is neither one of the submitted
candidate labels nor one of the candidate texts. -/
theorem C2_counterexample :
    MRCE_Lite.forward demoCfg demoOraclesJudgeBar "q".toList [] "g".toList
        "verify".toList [] [] false
      = .ok { vibe := "analytic".toList, candidates := ["foo".toList],
              rationale := [], answer := "bar".toList,
              candidate_labels := ["Analyst".toList], payload := none } ∧
    "bar".toList ∉ (["Analyst".toList] : List PyStr) ∧
    "bar".toList ∉ (["foo".toList] : List PyStr) := by
  refine ⟨?_, by decide, by decide⟩
  norm_num [MRCE_Lite.forward, demoCfg, demoOraclesJudgeBar, demoRouter,
    demoGateNo, demoAnswerFoo, gateNo, judgeOutBar, fallbackCand, EXPERTS,
    mmrSelect, mmrGo, bestScan, maxSim, negSentinel, dictGetD, weightOf,
    unpackJudge, firstTruthy]

/-- Claim C2 (amended): whenever the primary judge call returns an output `j`,
the pipeline winner is exactly `_unpack_judge(j)` — the first truthy field
among `answer`/`best`/`completion`/`output`/`response` (else `""`) — with no
membership check against the candidate labels and no ranking fallback. -/
theorem C2_winner_unvalidated (cfg : MRCEConfig)
    (R : PyStr → List Msg → PyStr → PyStr → PyStr → PyStr)
    (G : Expert → PyStr → List Msg → PyStr → PyStr → PyStr → PyStr → GateOut)
    (E : Expert → PyStr → List Msg → PyStr → PyStr → PyStr → PyStr → ExpertOut)
    (J : PyStr → List JudgeItem → JudgeOut)
    (SJ : PyStr → PyStr → PyStr → Except PyErr SimpleJudgeOut)
    (q : PyStr) (h : List Msg) (g m rg : PyStr) (eh : List (PyStr × PyStr))
    (wp : Bool) :
    ∃ p pay,
      MRCE_Lite.forward cfg
        { router := R, gate := G, expertAnswer := E,
          judge := fun a b => .ok (J a b), simpleJudge := SJ }
        q h g m rg eh wp = .ok p ∧
      p.answer = (unpackJudge (J q pay)).1 ∧
      p.rationale = (unpackJudge (J q pay)).2 ∧
      pay = asCompletionDicts p.candidates p.candidate_labels :=
  ⟨_, _, rfl, rfl, rfl, rfl⟩

/-- With a single candidate and `top_k ≥ 1` the selection loop picks exactly
that candidate (whatever the scores). -/
theorem mmrSelect_singleton {τ : Type} [DecidableEq τ] (lam : ℚ) (topk : ℕ)
    (c : Cand τ) (htop : 1 ≤ topk) :
    mmrSelect lam topk [c] = [c] := by
  show mmrGo lam topk 1 [] [c] = [c]
  rw [mmrGo]
  rw [if_neg (by simp; omega)]
  have hbi : bestScan lam [] [c] 0 0 negSentinel = 0 := by
    rw [bestScan]
    split <;> rfl
  rw [hbi]
  rfl

/-- A judge output whose only field is `answer="zzz"`. -/
def judgeOutZzz : JudgeOut :=
  { answer := some "zzz".toList, best := none, completion := none, output := none,
    response := none, rationale := none, why := none, critique := none,
    explanation := none, reason := none }

/-- Pipeline oracles: every expert gates `no`, executed experts answer `"foo"`,
and the judge answers `"zzz"`. -/
def demoOraclesJudgeZzz : MRCEOracles :=
  { router := demoRouter, gate := demoGateNo, expertAnswer := demoAnswerFoo,
    judge := fun _ _ => .ok judgeOutZzz,
    simpleJudge := fun _ _ _ => .error (.raised "nojudge".toList) }

/-- Claim C4 counterexample: with every expert gating `no`, exactly one
fallback candidate is executed and judged alone — but the winner is the
judge's output `"zzz"`, not the fallback expert's answer `"foo"`. -/
theorem C4_counterexample :
    MRCE_Lite.forward demoCfg demoOraclesJudgeZzz "q".toList [] "g".toList
        "verify".toList [] [] false
      = .ok { vibe := "analytic".toList, candidates := ["foo".toList],
              rationale := [], answer := "zzz".toList,
              candidate_labels := ["Analyst".toList], payload := none } ∧
    "zzz".toList ≠ "foo".toList := by
  refine ⟨?_, by decide⟩
  norm_num [MRCE_Lite.forward, demoCfg, demoOraclesJudgeZzz, demoRouter,
    demoGateNo, demoAnswerFoo, gateNo, judgeOutZzz, fallbackCand, EXPERTS,
    mmrSelect, mmrGo, bestScan, maxSim, negSentinel, dictGetD, weightOf,
    unpackJudge, firstTruthy]

/-- Claim C4 (amended): when no expert passes gating, the gating stage
produces exactly one synthetic candidate — the first registry expert with
score 1.0, empty tags and empty hint — so the pipeline never has zero
candidates; with `top_k ≥ 1` this fallback expert alone is executed and judged
(one candidate, one label), and the winner is whatever `_unpack_judge` yields
on the judge output, not necessarily the expert's answer. -/
theorem C4_gating_fallback (cfg : MRCEConfig)
    (R : PyStr → List Msg → PyStr → PyStr → PyStr → PyStr)
    (G : Expert → PyStr → List Msg → PyStr → PyStr → PyStr → PyStr → GateOut)
    (E : Expert → PyStr → List Msg → PyStr → PyStr → PyStr → PyStr → ExpertOut)
    (J : PyStr → List JudgeItem → JudgeOut)
    (SJ : PyStr → PyStr → PyStr → Except PyErr SimpleJudgeOut)
    (q : PyStr) (h : List Msg) (g m rg : PyStr) (eh : List (PyStr × PyStr))
    (wp : Bool)
    (hgate : ∀ ex a b c d v hh,
      ¬((G ex a b c d v hh).respond = "yes".toList ∧
        cfg.gate_min_conf ≤ (G ex a b c d v hh).confidence))
    (htop : 1 ≤ cfg.top_k) :
    ∃ p,
      MRCE_Lite.forward cfg
        { router := R, gate := G, expertAnswer := E,
          judge := fun a b => .ok (J a b), simpleJudge := SJ }
        q h g m rg eh wp = .ok p ∧
      p.candidates
        = [(E fallbackCand.expert q h g m (R q h g m rg)
            fallbackCand.hint).answer] ∧
      p.candidate_labels = ["Analyst".toList] ∧
      p.answer
        = (unpackJudge (J q (asCompletionDicts p.candidates
            p.candidate_labels))).1 := by
  simp only [MRCE_Lite.forward]
  rw [List.filterMap_eq_nil_iff.mpr ?hg]
  case hg =>
    intro ex hex
    rw [if_neg (hgate ex q h g m (R q h g m rg)
      (dictGetD eh (pyLower ex.persona_name) []))]
  rw [if_pos rfl, mmrSelect_singleton cfg.gate_lambda cfg.top_k fallbackCand htop]
  exact ⟨_, rfl, rfl, rfl, rfl⟩

/-- Witness for claim C4: all experts decline, judge answers `"zzz"`. -/
theorem C4_gating_fallback_witness :
    (∀ ex a b c d v hh,
      ¬((demoGateNo ex a b c d v hh).respond = "yes".toList ∧
        demoCfg.gate_min_conf ≤ (demoGateNo ex a b c d v hh).confidence)) ∧
    1 ≤ demoCfg.top_k ∧
    (∃ p,
      MRCE_Lite.forward demoCfg
        { router := demoRouter, gate := demoGateNo, expertAnswer := demoAnswerFoo,
          judge := fun a b => .ok ((fun _ _ => judgeOutZzz) a b),
          simpleJudge := fun _ _ _ => .error (.raised "nojudge".toList) }
        "q".toList [] "g".toList "verify".toList [] [] false = .ok p ∧
      p.candidates
        = [(demoAnswerFoo fallbackCand.expert "q".toList [] "g".toList
            "verify".toList (demoRouter "q".toList [] "g".toList "verify".toList [])
            fallbackCand.hint).answer] ∧
      p.candidate_labels = ["Analyst".toList] ∧
      p.answer
        = (unpackJudge ((fun _ _ => judgeOutZzz) "q".toList
            (asCompletionDicts p.candidates p.candidate_labels))).1) :=
  ⟨by
    intro ex a b c d v hh hc
    simp only [demoGateNo] at hc
    exact absurd hc.1 (by decide),
   by decide,
   C4_gating_fallback demoCfg demoRouter demoGateNo demoAnswerFoo
      (fun _ _ => judgeOutZzz) (fun _ _ _ => .error (.raised "nojudge".toList))
      "q".toList [] "g".toList "verify".toList [] [] false
      (by
        intro ex a b c d v hh hc
        simp only [demoGateNo] at hc
        exact absurd hc.1 (by decide))
      (by decide)⟩

/-- A scenario candidate with a large negative score (tags empty). -/
def cexA : Cand ℕ :=
  { expert := { persona_name := "A".toList, persona_text := [] },
    score := -2000000000, tags := ∅, hint := [] }

/-- A second scenario candidate with a less negative score (tags empty). -/
def cexB : Cand ℕ :=
  { expert := { persona_name := "B".toList, persona_text := [] },
    score := -1500000000, tags := ∅, hint := [] }

/-- Claim C5 counterexample: with both adjusted values below the `-1e9`
initialiser of `best_val`, the loop's strict-improvement test never fires and
the first candidate is selected even though the second has the strictly larger
value (here equal to its score, the selection being empty and the tags empty). -/
theorem C5_counterexample :
    mmrSelect (1 / 2 : ℚ) 1 [cexA, cexB] = [cexA] ∧
    cexA.score < cexB.score ∧ cexA ≠ cexB := by
  refine ⟨?_, by norm_num [cexA, cexB], by decide⟩
  norm_num [mmrSelect, mmrGo, bestScan, maxSim, negSentinel, cexA, cexB,
    List.cons_ne_nil]

/-! ## Selector versus specification -/

theorem foldl_max_le_iff (b : ℚ) :
    ∀ (l : List ℚ) (a : ℚ), l.foldl max a ≤ b ↔ a ≤ b ∧ ∀ x ∈ l, x ≤ b := by
  intro l
  induction l with
  | nil => intro a; simp
  | cons x xs ih =>
    intro a
    rw [List.foldl_cons, ih]
    constructor
    · rintro ⟨h1, h2⟩
      exact ⟨le_trans (le_max_left a x) h1,
        fun y hy => by
          rcases List.mem_cons.mp hy with rfl | hy2
          · exact le_trans (le_max_right a y) h1
          · exact h2 y hy2⟩
    · rintro ⟨h1, h2⟩
      exact ⟨max_le h1 (h2 x (by simp)), fun y hy => h2 y (by simp [hy])⟩

theorem le_foldl_max (l : List ℚ) (a : ℚ) :
    a ≤ l.foldl max a ∧ ∀ x ∈ l, x ≤ l.foldl max a :=
  (foldl_max_le_iff (l.foldl max a) l a).mp (le_refl _)

theorem foldl_max_mem : ∀ (l : List ℚ) (a : ℚ),
    l.foldl max a = a ∨ l.foldl max a ∈ l := by
  intro l
  induction l with
  | nil => intro a; exact Or.inl rfl
  | cons x xs ih =>
    intro a
    rw [List.foldl_cons]
    rcases ih (max a x) with h | h
    · rcases max_choice a x with hm | hm
      · exact Or.inl (by rw [h, hm])
      · exact Or.inr (by rw [h, hm]; simp)
    · exact Or.inr (by simp [h])

theorem jaccard_nonneg {τ : Type} [DecidableEq τ] (a b : Finset τ) :
    0 ≤ jaccard a b := by
  unfold jaccard
  split
  · exact le_refl 0
  · positivity

theorem jaccard_le_one {τ : Type} [DecidableEq τ] (a b : Finset τ) :
    jaccard a b ≤ 1 := by
  unfold jaccard
  split
  · exact zero_le_one
  · rw [div_le_one (by positivity)]
    have h1 : (a ∩ b).card ≤ (a ∪ b).card :=
      Finset.card_le_card (Finset.inter_subset_union)
    calc ((a ∩ b).card : ℚ) ≤ ((a ∪ b).card : ℚ) := by exact_mod_cast h1
      _ ≤ max ((a ∪ b).card : ℚ) 1 := le_max_left _ _

theorem maxSim_nonneg {τ : Type} [DecidableEq τ] (sel : List (Cand τ))
    (c : Cand τ) : 0 ≤ maxSim sel c := by
  unfold maxSim
  split
  · exact le_refl 0
  · rename_i s ss
    rw [← List.foldl_map]
    exact le_trans (jaccard_nonneg c.tags s.tags) (le_foldl_max _ _).1

theorem maxSim_le_one {τ : Type} [DecidableEq τ] (sel : List (Cand τ))
    (c : Cand τ) : maxSim sel c ≤ 1 := by
  unfold maxSim
  split
  · exact zero_le_one
  · rename_i s ss
    rw [← List.foldl_map, foldl_max_le_iff]
    exact ⟨jaccard_le_one _ _,
      fun x hx => by
        rcases List.mem_map.mp hx with ⟨y, -, rfl⟩
        exact jaccard_le_one _ _⟩

/-- The spec's selection value: `score - λ × max_over_selected(jaccard)`. -/
def specValue {τ : Type} [DecidableEq τ] (lam : ℚ) (sel : List (Cand τ))
    (c : Cand τ) : ℚ :=
  c.score - lam * maxSim sel c

theorem specValue_gt_sentinel {τ : Type} [DecidableEq τ] {lam : ℚ}
    {sel : List (Cand τ)} {c : Cand τ} (hlam0 : 0 ≤ lam)
    (hlam : lam < 1000000000) (hscore : 0 ≤ c.score) :
    negSentinel < specValue lam sel c := by
  unfold specValue negSentinel
  have h1 : lam * maxSim sel c ≤ lam := by
    calc lam * maxSim sel c ≤ lam * 1 :=
          mul_le_mul_of_nonneg_left (maxSim_le_one sel c) hlam0
      _ = lam := mul_one lam
  nlinarith [maxSim_nonneg sel c]

/-- The pure-values version of the inner argmax scan. -/
def scanVals : List ℚ → ℕ → ℕ → ℚ → ℕ
  | [], _, bi, _ => bi
  | v :: vs, i, bi, bv =>
    if bv < v then scanVals vs (i + 1) i v else scanVals vs (i + 1) bi bv

theorem bestScan_eq_scanVals {τ : Type} [DecidableEq τ] (lam : ℚ)
    (sel : List (Cand τ)) :
    ∀ (cands : List (Cand τ)) (i bi : ℕ) (bv : ℚ),
      bestScan lam sel cands i bi bv
        = scanVals (cands.map (specValue lam sel)) i bi bv := by
  intro cands
  induction cands with
  | nil => intro i bi bv; rfl
  | cons c cs ih =>
    intro i bi bv
    simp only [bestScan, scanVals, List.map_cons, specValue]
    by_cases h : bv < c.score - lam * maxSim sel c
    · rw [if_pos h, if_pos h]
      exact ih _ _ _
    · rw [if_neg h, if_neg h]
      exact ih _ _ _

/-- Modelled from the spec (§4.2): the first-encountered remaining candidate
attaining the maximum value — the index of the first entry that is greater or
equal to every entry. -/
def specPickIdx (vals : List ℚ) : ℕ :=
  vals.findIdx (fun v => vals.all (fun w => decide (w ≤ v)))

theorem specPickIdx_append_gt (pre : List ℚ) (v : ℚ)
    (hgt : ∀ w ∈ pre, w < v) :
    specPickIdx (pre ++ [v]) = pre.length := by
  unfold specPickIdx
  rw [List.findIdx_append]
  have hno : pre.findIdx (fun w => (pre ++ [v]).all fun u => decide (u ≤ w))
      = pre.length := by
    rw [List.findIdx_eq_length]
    intro w hw
    refine List.all_eq_false.mpr ⟨v, by simp, ?_⟩
    simp [not_le.mpr (hgt w hw)]
  rw [if_neg (by rw [hno]; omega)]
  have hyes : ((pre ++ [v]).all fun u => decide (u ≤ v)) = true := by
    rw [List.all_eq_true]
    intro u hu
    rcases List.mem_append.mp hu with hu2 | hu2
    · simpa using le_of_lt (hgt u hu2)
    · simp at hu2
      simp [hu2]
  rw [List.findIdx_cons, hyes]
  simp

theorem specPickIdx_append_le (pre : List ℚ) (v M : ℚ)
    (hM : M ∈ pre) (hMax : ∀ w ∈ pre, w ≤ M) (hv : v ≤ M) :
    specPickIdx (pre ++ [v]) = specPickIdx pre := by
  unfold specPickIdx
  have hfun : (fun w => (pre ++ [v]).all fun u => decide (u ≤ w))
      = (fun w => pre.all fun u => decide (u ≤ w)) := by
    funext w
    rcases hall : pre.all fun u => decide (u ≤ w) with - | -
    · rw [List.all_append, hall]
      rfl
    · rw [List.all_append, hall]
      have hMw : M ≤ w := by
        have := List.all_eq_true.mp hall M hM
        simpa using this
      simp [le_trans hv hMw]
  rw [hfun, List.findIdx_append]
  have hhit : (pre.findIdx fun w => pre.all fun u => decide (u ≤ w))
      < pre.length := by
    rw [List.findIdx_lt_length]
    refine ⟨M, hM, ?_⟩
    rw [List.all_eq_true]
    intro u hu
    simpa using hMax u hu
  rw [if_pos hhit]

/-- Scanning invariant: continuing the strict-improvement scan from the first
argmax and maximum of a processed non-empty prefix computes the first argmax
of the whole list. -/
theorem scanVals_spec (p : ℚ) :
    ∀ (vs ps : List ℚ),
      scanVals vs (ps.length + 1) (specPickIdx (p :: ps)) (ps.foldl max p)
        = specPickIdx ((p :: ps) ++ vs) := by
  intro vs
  induction vs with
  | nil =>
    intro ps
    rw [List.append_nil]
    rfl
  | cons v vs ih =>
    intro ps
    rw [scanVals]
    have hMax : ∀ w ∈ p :: ps, w ≤ ps.foldl max p := by
      intro w hw
      rcases List.mem_cons.mp hw with rfl | hw2
      · exact (le_foldl_max ps w).1
      · exact (le_foldl_max ps p).2 w hw2
    by_cases h : ps.foldl max p < v
    · rw [if_pos h]
      have h1 : specPickIdx ((p :: ps) ++ [v]) = ps.length + 1 := by
        apply specPickIdx_append_gt
        intro w hw
        exact lt_of_le_of_lt (hMax w hw) h
      have h2 : (ps ++ [v]).foldl max p = v := by
        rw [List.foldl_append]
        exact max_eq_right (le_of_lt h)
      have h3 := ih (ps ++ [v])
      rw [List.length_append, List.cons_append] at h3
      simp only [List.length_cons, List.length_nil] at h3
      rw [← List.cons_append, h1, h2] at h3
      rw [h3]
      simp
    · rw [if_neg h]
      push_neg at h
      have hM : ps.foldl max p ∈ p :: ps := by
        rcases foldl_max_mem ps p with he | he
        · rw [he]; exact List.mem_cons_self _ _
        · exact List.mem_cons_of_mem _ he
      have h1 : specPickIdx ((p :: ps) ++ [v]) = specPickIdx (p :: ps) :=
        specPickIdx_append_le (p :: ps) v (ps.foldl max p) hM hMax h
      have h2 : (ps ++ [v]).foldl max p = ps.foldl max p := by
        rw [List.foldl_append]
        exact max_eq_left h
      have h3 := ih (ps ++ [v])
      rw [List.length_append, List.cons_append] at h3
      simp only [List.length_cons, List.length_nil] at h3
      rw [← List.cons_append, h1, h2] at h3
      rw [h3]
      simp

/-- The source's `-1e9`-seeded scan equals the spec's first argmax whenever
every value beats the sentinel. -/
theorem scanVals_eq_specPickIdx (v : ℚ) (vs : List ℚ) (hv : negSentinel < v) :
    scanVals (v :: vs) 0 0 negSentinel = specPickIdx (v :: vs) := by
  rw [scanVals, if_pos hv]
  have h0 : specPickIdx [v] = 0 := by
    have : (([v] : List ℚ).all fun w => decide (w ≤ v)) = true := by
      simp
    simp [specPickIdx, List.findIdx_cons, this]
  have := scanVals_spec v vs []
  simp only [List.length_nil, List.foldl_nil, h0, Nat.zero_add] at this
  simpa using this

/-- Modelled from the spec (§4.2): the greedy MMR loop — repeatedly move the
first-encountered maximum-value candidate into the selection until `top_k` is
reached or the candidates are exhausted. -/
def specMMRgo {τ : Type} [DecidableEq τ] (lam : ℚ) (topk : ℕ) :
    ℕ → List (Cand τ) → List (Cand τ) → List (Cand τ)
  | 0, sel, _ => sel
  | fuel + 1, sel, cands =>
    if cands = [] ∨ ¬ sel.length < topk then sel
    else
      let bi := specPickIdx (cands.map (specValue lam sel))
      match cands[bi]? with
      | none => sel
      | some c => specMMRgo lam topk fuel (sel ++ [c]) (cands.eraseIdx bi)

/-- Modelled from the spec (§4.2): the full diversity-aware selector. -/
def specMMR {τ : Type} [DecidableEq τ] (lam : ℚ) (topk : ℕ)
    (gated : List (Cand τ)) : List (Cand τ) :=
  specMMRgo lam topk gated.length [] gated

/-- Under the sanity conditions `0 ≤ score`, `0 ≤ λ < 1e9` every adjusted
value beats the `-1e9` sentinel, and the source selection loop agrees with
the spec's greedy MMR loop. -/
theorem mmrGo_eq_spec {τ : Type} [DecidableEq τ] (lam : ℚ) (topk : ℕ)
    (hlam0 : 0 ≤ lam) (hlam : lam < 1000000000) :
    ∀ (fuel : ℕ) (sel cands : List (Cand τ)), (∀ c ∈ cands, 0 ≤ c.score) →
      mmrGo lam topk fuel sel cands = specMMRgo lam topk fuel sel cands := by
  intro fuel
  induction fuel with
  | zero => intro sel cands _; rfl
  | succ fuel ih =>
    intro sel cands hs
    rw [mmrGo, specMMRgo]
    split
    · rfl
    · rename_i hcond
      push_neg at hcond
      have hkey : bestScan lam sel cands 0 0 negSentinel
          = specPickIdx (cands.map (specValue lam sel)) := by
        rw [bestScan_eq_scanVals]
        cases cands with
        | nil => exact absurd rfl hcond.1
        | cons c cs =>
          rw [List.map_cons]
          exact scanVals_eq_specPickIdx _ _
            (specValue_gt_sentinel hlam0 hlam (hs c (by simp)))
      rw [hkey]
      dsimp only
      cases hget : cands[specPickIdx (cands.map (specValue lam sel))]? with
      | none => rfl
      | some c =>
        exact ih (sel ++ [c]) _
          (fun x hx => hs x (List.eraseIdx_subset _ _ hx))

/-- Claim C5 (amended): provided every gated candidate's score is nonnegative
and `0 ≤ λ < 1e9` (so that every adjusted value beats the `-1e9` initialiser
of `best_val`), the source selector implements exactly the spec's greedy MMR
algorithm with first-encountered tie-breaking. -/
theorem C5_mmr_matches_spec {τ : Type} [DecidableEq τ] (lam : ℚ) (topk : ℕ)
    (gated : List (Cand τ)) (hs : ∀ c ∈ gated, 0 ≤ c.score)
    (hlam0 : 0 ≤ lam) (hlam : lam < 1000000000) :
    mmrSelect lam topk gated = specMMR lam topk gated :=
  mmrGo_eq_spec lam topk hlam0 hlam gated.length [] gated hs

/-- Scenario expert A: confidence 0.9, tags `{x}` (as `{0}`). -/
def scA : Cand ℕ :=
  { expert := { persona_name := "A".toList, persona_text := [] },
    score := 9 / 10, tags := {0}, hint := [] }

/-- Scenario expert B: confidence 0.8, tags `{x}` (as `{0}`). -/
def scB : Cand ℕ :=
  { expert := { persona_name := "B".toList, persona_text := [] },
    score := 8 / 10, tags := {0}, hint := [] }

/-- Scenario expert C: confidence 0.7, tags `{y}` (as `{1}`). -/
def scC : Cand ℕ :=
  { expert := { persona_name := "C".toList, persona_text := [] },
    score := 7 / 10, tags := {1}, hint := [] }

/-- Witness for claim C5: the spec scenario (λ = 0.5, top_k = 3) satisfies the
hypotheses, the source selector agrees with the spec selector there, and the
selection order is `[A, C, B]`. -/
theorem C5_mmr_matches_spec_witness :
    (∀ c ∈ [scA, scB, scC], 0 ≤ c.score) ∧ (0 : ℚ) ≤ 1 / 2 ∧
    (1 / 2 : ℚ) < 1000000000 ∧
    mmrSelect (1 / 2 : ℚ) 3 [scA, scB, scC] = specMMR (1 / 2 : ℚ) 3 [scA, scB, scC] ∧
    mmrSelect (1 / 2 : ℚ) 3 [scA, scB, scC] = [scA, scC, scB] := by
  have hs : ∀ c ∈ [scA, scB, scC], 0 ≤ c.score := by
    intro c hc
    simp only [List.mem_cons, List.not_mem_nil, or_false] at hc
    rcases hc with rfl | rfl | rfl <;> norm_num [scA, scB, scC]
  have jaa : jaccard ({0} : Finset ℕ) {0} = 1 := by
    unfold jaccard
    rw [if_neg (by decide), show (({0} : Finset ℕ) ∩ {0}).card = 1 from by decide,
      show (({0} : Finset ℕ) ∪ {0}).card = 1 from by decide]
    norm_num
  have jab : jaccard ({1} : Finset ℕ) {0} = 0 := by
    unfold jaccard
    rw [if_neg (by decide), show (({1} : Finset ℕ) ∩ {0}).card = 0 from by decide,
      show (({1} : Finset ℕ) ∪ {0}).card = 2 from by decide]
    norm_num
  have jba : jaccard ({0} : Finset ℕ) {1} = 0 := by
    unfold jaccard
    rw [if_neg (by decide), show (({0} : Finset ℕ) ∩ {1}).card = 0 from by decide,
      show (({0} : Finset ℕ) ∪ {1}).card = 2 from by decide]
    norm_num
  refine ⟨hs, by norm_num, by norm_num,
    C5_mmr_matches_spec (1 / 2) 3 [scA, scB, scC] hs (by norm_num) (by norm_num),
    ?_⟩
  norm_num [mmrSelect, mmrGo, bestScan, maxSim, negSentinel, scA, scB, scC,
    jaa, jab, jba, List.eraseIdx, List.cons_ne_nil]
